import Mathlib

/-!
Verification development for the DesignGenius design-token pipeline.

The definitions below are a shallow embedding of the token-extraction and
token-synthesis code:

* the extraction engine of src/backend-web/src/feature-breakdown-generator.ts
  (extractTextStyles, extractColors, extractAutoLayoutInfo, extractSpacing,
  parseFigmaNodes, rgbToHex, rgbToRgba), and
* the token synthesizer (generateColorName, categorizeColor,
  generateColorTokens, generateTypographyName, generateTypographyTokens,
  generateSpacingTokens, generateBorderRadiusTokens, generateDesignTokens).

Modelling conventions:

* JavaScript numbers are modelled as rationals; arithmetic is exact.
* Optional fields are Option values; JavaScript truthiness of a number
  (0 and undefined are falsy) and of a string (the empty string is falsy)
  is modelled explicitly by jsOrQ, jsOrS and truthyQ.
* A JavaScript Map is modelled as an association list in insertion order;
  Map.has / Map.set correspond to insertKV.
* Array.prototype.sort with the numeric comparator is modelled by the
  insertion sort sortAsc; the spread of a Set is modelled by jsSetDedup,
  which keeps first occurrences in order.
* The children field of a node is modelled as a plain list: the source only
  ever uses it as "if (node.children) node.children.forEach(...)", so an
  absent children array is observationally equal to an empty one.
-/

namespace DG

/-- JavaScript "x || d" for an optional number x: undefined and 0 are falsy. -/
def jsOrQ (x : Option ℚ) (d : ℚ) : ℚ :=
  match x with
  | none => d
  | some v => if v = 0 then d else v

/-- JavaScript "x || d" for an optional string x: undefined and "" are falsy. -/
def jsOrS (x : Option String) (d : String) : String :=
  match x with
  | none => d
  | some s => if s = "" then d else s

/-- JavaScript truthiness of an optional number. -/
def truthyQ (x : Option ℚ) : Bool :=
  match x with
  | none => false
  | some v => v != 0

/-- JavaScript Math.round: round half toward positive infinity. -/
def jsRound (q : ℚ) : ℤ := ⌊q + 1/2⌋

/-- Hexadecimal digits of a natural number, lowercase, as produced by the
JavaScript Number.toString(16) on a nonnegative integer. -/
def natToHex (n : ℕ) : String := ⟨Nat.toDigits 16 n⟩

/-- Number.toString(16) on an integer. -/
def intToHex (i : ℤ) : String :=
  if i < 0 then "-" ++ natToHex i.natAbs else natToHex i.toNat

/-- JavaScript String.prototype.toUpperCase on ASCII strings. -/
def strToUpper (s : String) : String := ⟨s.data.map Char.toUpper⟩

/-- The inner toHex helper of rgbToHex: hex of round(n * 255), padded to two
digits when it has length one. -/
def toHex (n : ℚ) : String :=
  let hex := intToHex (jsRound (n * 255))
  if hex.length = 1 then "0" ++ hex else hex

/-- rgbToHex of feature-breakdown-generator.ts. -/
def rgbToHex (r g b : ℚ) : String :=
  strToUpper ("#" ++ toHex r ++ toHex g ++ toHex b)

/-- Two-digit zero padding of a natural number below 100. -/
def natPad2 (n : ℕ) : String := (if n < 10 then "0" else "") ++ toString n

/-- JavaScript Number.toFixed(2). -/
def toFixed2 (q : ℚ) : String :=
  let n := jsRound (q * 100)
  if n < 0 then
    "-" ++ toString (n.natAbs / 100) ++ "." ++ natPad2 (n.natAbs % 100)
  else
    toString (n.toNat / 100) ++ "." ++ natPad2 (n.toNat % 100)

/-- rgbToRgba of feature-breakdown-generator.ts. -/
def rgbToRgba (r g b a : ℚ) : String :=
  "rgba(" ++ toString (jsRound (r * 255)) ++ ", " ++ toString (jsRound (g * 255))
    ++ ", " ++ toString (jsRound (b * 255)) ++ ", " ++ toFixed2 a ++ ")"

/-- One step of a JavaScript Map keyed by strings: insert the pair when the
key is not yet present, otherwise keep the map unchanged. -/
def insertKV {α : Type} (acc : List (String × α)) (p : String × α) :
    List (String × α) :=
  if p.1 ∈ acc.map Prod.fst then acc else acc ++ [p]

/-- Declarative first-seen-wins deduplication by key: keep each pair whose key
has not occurred earlier in the list. -/
def firstByKey {α : Type} : List (String × α) → List (String × α)
  | [] => []
  | p :: ps => p :: firstByKey (ps.filter (fun q => q.1 != p.1))
termination_by l => l.length
decreasing_by simp; exact Nat.lt_succ_of_le (List.length_filter_le _ _)

/-- One step of collecting a number with an Array.includes duplicate check. -/
def insertNew (acc : List ℚ) (v : ℚ) : List ℚ :=
  if v ∈ acc then acc else acc ++ [v]

/-- The spread of a JavaScript Set built from a list of numbers: first
occurrences, in order. -/
def jsSetDedup (l : List ℚ) : List ℚ := l.foldl insertNew []

/-- Insert a number into an ascending-sorted list. -/
def insertAsc (v : ℚ) : List ℚ → List ℚ
  | [] => [v]
  | w :: ws => if v ≤ w then v :: w :: ws else w :: insertAsc v ws

/-- Ascending numeric sort, modelling Array.prototype.sort((a, b) => a - b). -/
def sortAsc (l : List ℚ) : List ℚ := l.foldr insertAsc []

/-- Array.prototype.map with the element index, as in l.map((x, i) => f x i),
starting from a given index. -/
def jsMapIdx {α β : Type} : List α → ℕ → (α → ℕ → β) → List β
  | [], _, _ => []
  | a :: as, i, f => f a i :: jsMapIdx as (i + 1) f

/-! ## The design-node data model (FigmaNode of feature-breakdown-generator.ts)

Fields that no extraction function ever reads (id, name, characters, width,
height, x, y, visible) are omitted; they cannot influence any output. -/

/-- An RGBA color record; the alpha channel may be absent at runtime (the
extraction code destructures it with a default of 1). -/
structure RGBA where
  r : ℚ
  g : ℚ
  b : ℚ
  a : Option ℚ
deriving DecidableEq

/-- A paint descriptor appearing in fills, strokes or effects. -/
structure Paint where
  type : String
  color : Option RGBA
  opacity : Option ℚ
deriving DecidableEq

/-- A line-height or letter-spacing field: a bare number or a value-unit pair. -/
inductive NumOrUnit where
  | num (v : ℚ)
  | vu (value : ℚ) (unit : String)
deriving DecidableEq

/-- The optional style record of a TEXT node. -/
structure RawTextStyle where
  fontFamily : Option String
  fontSize : Option ℚ
  fontWeight : Option ℚ
  lineHeight : Option NumOrUnit
  letterSpacing : Option NumOrUnit
  textCase : Option String
deriving DecidableEq

/-- cornerRadius: a single number or a four-corner record. -/
inductive CornerRadiusVal where
  | single (v : ℚ)
  | corners (topLeft topRight bottomLeft bottomRight : ℚ)
deriving DecidableEq

/-- A design node. -/
inductive FigmaNode where
  | mk
    (type : String)
    (fills : Option (List Paint))
    (strokes : Option (List Paint))
    (effects : Option (List Paint))
    (style : Option RawTextStyle)
    (layoutMode : Option String)
    (paddingLeft : Option ℚ)
    (paddingRight : Option ℚ)
    (paddingTop : Option ℚ)
    (paddingBottom : Option ℚ)
    (itemSpacing : Option ℚ)
    (cornerRadius : Option CornerRadiusVal)
    (children : List FigmaNode)

/-! ## Parsed extraction results -/

/-- ParsedTextStyle of feature-breakdown-generator.ts. -/
structure ParsedTextStyle where
  fontFamily : String
  fontSize : ℚ
  fontWeight : ℚ
  lineHeight : ℚ
  letterSpacing : ℚ
  textCase : Option String
deriving DecidableEq

/-- ParsedColor of feature-breakdown-generator.ts. -/
structure ParsedColor where
  r : ℚ
  g : ℚ
  b : ℚ
  a : ℚ
  hex : String
  rgba : String
deriving DecidableEq

/-- A four-sided padding or margin record. -/
structure PaddingBox where
  left : ℚ
  right : ℚ
  top : ℚ
  bottom : ℚ
deriving DecidableEq

/-- ParsedAutoLayout of feature-breakdown-generator.ts. -/
structure ParsedAutoLayout where
  direction : String
  padding : PaddingBox
  spacing : ℚ
deriving DecidableEq

/-- ParsedSpacing of feature-breakdown-generator.ts: the margin field is
declared in the source interface but, as proved below, never produced. -/
structure ParsedSpacing where
  padding : Option PaddingBox
  margin : Option PaddingBox
  gap : Option ℚ
deriving DecidableEq

/-- ParsedDesign of feature-breakdown-generator.ts. -/
structure ParsedDesign where
  textStyles : List ParsedTextStyle
  colors : List ParsedColor
  autoLayouts : List ParsedAutoLayout
  spacing : List ParsedSpacing
  borderRadius : List ℚ
deriving DecidableEq

/-! ## The extraction engine (feature-breakdown-generator.ts) -/

/-- The Map key of extractTextStyles. The defaults in the key (Unknown, 0,
400) are those written in the source; they differ from the defaults stored
in the parsed style (Inter, 16, 400). -/
def textStyleKey (s : RawTextStyle) : String :=
  jsOrS s.fontFamily "Unknown" ++ "-" ++ toString (jsOrQ s.fontSize 0)
    ++ "-" ++ toString (jsOrQ s.fontWeight 400)

/-- The ParsedTextStyle stored by extractTextStyles for a raw style. -/
def parsedOfStyle (s : RawTextStyle) : ParsedTextStyle :=
  { fontFamily := jsOrS s.fontFamily "Inter"
    fontSize := jsOrQ s.fontSize 16
    fontWeight := jsOrQ s.fontWeight 400
    lineHeight :=
      match s.lineHeight with
      | some (.vu v _) => v
      | some (.num v) => if v = 0 then jsOrQ s.fontSize 16 else v
      | none => jsOrQ s.fontSize 16
    letterSpacing :=
      match s.letterSpacing with
      | some (.vu v _) => v
      | some (.num v) => if v = 0 then 0 else v
      | none => 0
    textCase := s.textCase }

mutual

/-- The traverse function of extractTextStyles, on one node. -/
def extractTextStylesNode :
    FigmaNode → List (String × ParsedTextStyle) → List (String × ParsedTextStyle)
  | .mk ty _ _ _ st _ _ _ _ _ _ _ cs, acc =>
    let acc' :=
      if ty = "TEXT" then
        match st with
        | some s => insertKV acc (textStyleKey s, parsedOfStyle s)
        | none => acc
      else acc
    extractTextStylesList cs acc'

/-- The traverse function of extractTextStyles, on a list of nodes. -/
def extractTextStylesList :
    List FigmaNode → List (String × ParsedTextStyle) → List (String × ParsedTextStyle)
  | [], acc => acc
  | n :: ns, acc => extractTextStylesList ns (extractTextStylesNode n acc)

end

/-- extractTextStyles of feature-breakdown-generator.ts. -/
def extractTextStyles (nodes : List FigmaNode) : List ParsedTextStyle :=
  (extractTextStylesList nodes []).map Prod.snd

/-- The ParsedColor built by extractColorFromFill for a color record:
alpha defaults to 1, hex and rgba are derived strings. -/
def mkParsedColor (c : RGBA) : ParsedColor :=
  let a := c.a.getD 1
  { r := c.r, g := c.g, b := c.b, a := a
    hex := rgbToHex c.r c.g c.b
    rgba := rgbToRgba c.r c.g c.b a }

/-- extractColorFromFill of extractColors: insert a SOLID paint with a
populated color under its hex key. -/
def extractColorEntry (fill : Paint) (acc : List (String × ParsedColor)) :
    List (String × ParsedColor) :=
  if fill.type = "SOLID" then
    match fill.color with
    | some c => insertKV acc (rgbToHex c.r c.g c.b, mkParsedColor c)
    | none => acc
  else acc

mutual

/-- The traverse function of extractColors, on one node: fills, then strokes,
then effects (an effect with a color field is treated as a SOLID paint),
then the children. -/
def extractColorsNode :
    FigmaNode → List (String × ParsedColor) → List (String × ParsedColor)
  | .mk _ fills strokes effects _ _ _ _ _ _ _ _ cs, acc =>
    let acc1 := (fills.getD []).foldl (fun a p => extractColorEntry p a) acc
    let acc2 := (strokes.getD []).foldl (fun a p => extractColorEntry p a) acc1
    let acc3 := (effects.getD []).foldl
      (fun a e =>
        match e.color with
        | some c => extractColorEntry ⟨"SOLID", some c, none⟩ a
        | none => a) acc2
    extractColorsList cs acc3

/-- The traverse function of extractColors, on a list of nodes. -/
def extractColorsList :
    List FigmaNode → List (String × ParsedColor) → List (String × ParsedColor)
  | [], acc => acc
  | n :: ns, acc => extractColorsList ns (extractColorsNode n acc)

end

/-- extractColors of feature-breakdown-generator.ts. -/
def extractColors (nodes : List FigmaNode) : List ParsedColor :=
  (extractColorsList nodes []).map Prod.snd

mutual

/-- The traverse function of extractAutoLayoutInfo, on one node. -/
def extractAutoLayoutNode :
    FigmaNode → List ParsedAutoLayout → List ParsedAutoLayout
  | .mk _ _ _ _ _ lm pl pr pt pb isp _ cs, acc =>
    let acc' :=
      match lm with
      | some m =>
        if m != "" && m != "NONE" then
          acc ++ [{ direction := m
                    padding := { left := jsOrQ pl 0, right := jsOrQ pr 0
                                 top := jsOrQ pt 0, bottom := jsOrQ pb 0 }
                    spacing := jsOrQ isp 0 }]
        else acc
      | none => acc
    extractAutoLayoutList cs acc'

/-- The traverse function of extractAutoLayoutInfo, on a list of nodes. -/
def extractAutoLayoutList :
    List FigmaNode → List ParsedAutoLayout → List ParsedAutoLayout
  | [], acc => acc
  | n :: ns, acc => extractAutoLayoutList ns (extractAutoLayoutNode n acc)

end

/-- extractAutoLayoutInfo of feature-breakdown-generator.ts. -/
def extractAutoLayoutInfo (nodes : List FigmaNode) : List ParsedAutoLayout :=
  extractAutoLayoutList nodes []

/-- The ParsedSpacing a single node contributes, when nonempty: a padding
record when any padding side is truthy, a gap when itemSpacing is defined. -/
def spacingDataOf :
    Option ℚ → Option ℚ → Option ℚ → Option ℚ → Option ℚ → ParsedSpacing
  | pl, pr, pt, pb, isp =>
    { padding :=
        if truthyQ pl || truthyQ pr || truthyQ pt || truthyQ pb then
          some { left := jsOrQ pl 0, right := jsOrQ pr 0
                 top := jsOrQ pt 0, bottom := jsOrQ pb 0 }
        else none
      margin := none
      gap := isp }

mutual

/-- The traverse function of extractSpacing, on one node. -/
def extractSpacingNode : FigmaNode → List ParsedSpacing → List ParsedSpacing
  | .mk _ _ _ _ _ _ pl pr pt pb isp _ cs, acc =>
    let data := spacingDataOf pl pr pt pb isp
    let acc' :=
      if data.padding.isSome || data.gap.isSome then acc ++ [data] else acc
    extractSpacingList cs acc'

/-- The traverse function of extractSpacing, on a list of nodes. -/
def extractSpacingList : List FigmaNode → List ParsedSpacing → List ParsedSpacing
  | [], acc => acc
  | n :: ns, acc => extractSpacingList ns (extractSpacingNode n acc)

end

/-- extractSpacing of feature-breakdown-generator.ts. -/
def extractSpacing (nodes : List FigmaNode) : List ParsedSpacing :=
  extractSpacingList nodes []

mutual

/-- The extractBorderRadius closure of parseFigmaNodes, on one node: a single
cornerRadius number is collected, a four-corner record contributes its four
numbers independently, each guarded by an Array.includes duplicate check. -/
def collectRadiiNode : FigmaNode → List ℚ → List ℚ
  | .mk _ _ _ _ _ _ _ _ _ _ _ cr cs, acc =>
    let acc' :=
      match cr with
      | some (.single v) => insertNew acc v
      | some (.corners tl tr bl br) => [tl, tr, bl, br].foldl insertNew acc
      | none => acc
    collectRadiiList cs acc'

/-- The extractBorderRadius closure of parseFigmaNodes, on a list of nodes. -/
def collectRadiiList : List FigmaNode → List ℚ → List ℚ
  | [], acc => acc
  | n :: ns, acc => collectRadiiList ns (collectRadiiNode n acc)

end

/-- parseFigmaNodes of feature-breakdown-generator.ts. -/
def parseFigmaNodes (nodes : List FigmaNode) : ParsedDesign :=
  { textStyles := extractTextStyles nodes
    colors := extractColors nodes
    autoLayouts := extractAutoLayoutInfo nodes
    spacing := extractSpacing nodes
    borderRadius := sortAsc (jsSetDedup (collectRadiiList nodes [])) }

/-! ## The token synthesizer (tokens-generator source, DesignTokens module) -/

/-- The color token category union type. -/
inductive ColorCategory where
  | primary
  | secondary
  | neutral
  | semantic
deriving DecidableEq

/-- ColorToken of the synthesizer. -/
structure ColorToken where
  name : String
  value : String
  hex : String
  rgba : String
  category : ColorCategory
deriving DecidableEq

/-- TypographyToken of the synthesizer. -/
structure TypographyToken where
  name : String
  fontFamily : String
  fontSize : ℚ
  fontWeight : ℚ
  lineHeight : ℚ
  letterSpacing : ℚ
  textCase : Option String
deriving DecidableEq

/-- SpacingToken of the synthesizer; the category union is modelled as a
string over padding, margin and gap. -/
structure SpacingToken where
  name : String
  value : ℚ
  category : String
deriving DecidableEq

/-- BorderRadiusToken of the synthesizer. -/
structure BorderRadiusToken where
  name : String
  value : ℚ
deriving DecidableEq

/-- DesignTokens of the synthesizer. -/
structure DesignTokens where
  colors : List ColorToken
  typography : List TypographyToken
  spacing : List SpacingToken
  borderRadius : List BorderRadiusToken
deriving DecidableEq

/-- The perceptual brightness computed (twice, identically) by
generateColorName and categorizeColor. -/
def brightness (color : ParsedColor) : ℚ :=
  (color.r * 299 + color.g * 587 + color.b * 114) / 1000

/-- generateColorName of the synthesizer. -/
def generateColorName (color : ParsedColor) (index : ℕ)
    (allColors : List ParsedColor) : String :=
  if brightness color < 0.3 then
    "neutral-" ++ toString (index + 1) ++ "-dark"
  else if brightness color > 0.7 then
    "neutral-" ++ toString (index + 1) ++ "-light"
  else if color.r > color.g ∧ color.r > color.b then
    "primary-" ++ toString (index + 1)
  else if color.g > color.r ∧ color.g > color.b then
    "secondary-" ++ toString (index + 1)
  else
    "semantic-" ++ toString (index + 1)

/-- categorizeColor of the synthesizer. -/
def categorizeColor (color : ParsedColor) (index : ℕ)
    (allColors : List ParsedColor) : ColorCategory :=
  if brightness color < 0.3 ∨ brightness color > 0.7 then
    .neutral
  else if color.r > color.g ∧ color.r > color.b then
    .primary
  else if color.g > color.r ∧ color.g > color.b then
    .secondary
  else
    .semantic

/-- generateColorTokens of the synthesizer. -/
def generateColorTokens (colors : List ParsedColor) : List ColorToken :=
  jsMapIdx colors 0 (fun color index =>
    { name := generateColorName color index colors
      value := color.hex
      hex := color.hex
      rgba := color.rgba
      category := categorizeColor color index colors })

/-- generateTypographyName of the synthesizer (the index argument is unused in
the source as well). -/
def generateTypographyName (style : ParsedTextStyle) (index : ℕ) : String :=
  if style.fontSize ≥ 32 then
    "heading-" ++ (if style.fontWeight ≥ 700 then "bold" else "regular")
  else if style.fontSize ≥ 24 then
    "subheading-" ++ (if style.fontWeight ≥ 600 then "semibold" else "regular")
  else if style.fontSize ≥ 18 then
    "body-large-" ++ (if style.fontWeight ≥ 500 then "medium" else "regular")
  else if style.fontSize ≥ 16 then
    "body-" ++ (if style.fontWeight ≥ 500 then "medium" else "regular")
  else if style.fontSize ≥ 14 then
    "body-small-" ++ (if style.fontWeight ≥ 500 then "medium" else "regular")
  else
    "caption-" ++ (if style.fontWeight ≥ 500 then "medium" else "regular")

/-- The Map key of generateTypographyTokens. -/
def typographyKey (style : ParsedTextStyle) : String :=
  style.fontFamily ++ "-" ++ toString style.fontSize
    ++ "-" ++ toString style.fontWeight

/-- generateTypographyTokens of the synthesizer: a defensive re-deduplication
pass on (fontFamily, fontSize, fontWeight), then naming. -/
def generateTypographyTokens (textStyles : List ParsedTextStyle) :
    List TypographyToken :=
  let uniqueStyles :=
    textStyles.foldl (fun acc s => insertKV acc (typographyKey s, s)) []
  jsMapIdx (uniqueStyles.map Prod.snd) 0 (fun style index =>
    { name := generateTypographyName style index
      fontFamily := style.fontFamily
      fontSize := style.fontSize
      fontWeight := style.fontWeight
      lineHeight := style.lineHeight
      letterSpacing := style.letterSpacing
      textCase := style.textCase })

/-- generateSpacingTokens of the synthesizer. -/
def generateSpacingTokens (spacing : List ℚ) : List SpacingToken :=
  jsMapIdx (sortAsc (jsSetDedup spacing)) 0 (fun value index =>
    { name :=
        if value = 0 then "none"
        else if value ≤ 4 then "xs-" ++ toString index
        else if value ≤ 8 then "sm-" ++ toString index
        else if value ≤ 16 then "md-" ++ toString index
        else if value ≤ 24 then "lg-" ++ toString index
        else if value ≤ 32 then "xl-" ++ toString index
        else "xxl-" ++ toString index
      value := value
      category := "gap" })

/-- generateBorderRadiusTokens of the synthesizer. -/
def generateBorderRadiusTokens (borderRadius : List ℚ) : List BorderRadiusToken :=
  jsMapIdx (sortAsc (jsSetDedup borderRadius)) 0 (fun value index =>
    { name :=
        if value = 0 then "none"
        else if value ≤ 4 then "sm-" ++ toString index
        else if value ≤ 8 then "md-" ++ toString index
        else if value ≤ 16 then "lg-" ++ toString index
        else "xl-" ++ toString index
      value := value })

/-- The flat list of spacing values gathered by generateDesignTokens from the
auto-layout records (padding sides and spacing) and the spacing records
(padding sides, margin sides and gap, dropping undefined entries). -/
def allSpacingValues (parsedDesign : ParsedDesign) : List ℚ :=
  (parsedDesign.autoLayouts.flatMap (fun l =>
    [l.padding.left, l.padding.right, l.padding.top, l.padding.bottom, l.spacing]))
  ++ (parsedDesign.spacing.flatMap (fun s =>
    ([s.padding.map PaddingBox.left, s.padding.map PaddingBox.right,
      s.padding.map PaddingBox.top, s.padding.map PaddingBox.bottom,
      s.margin.map PaddingBox.left, s.margin.map PaddingBox.right,
      s.margin.map PaddingBox.top, s.margin.map PaddingBox.bottom,
      s.gap]).filterMap id))

/-- generateDesignTokens of the synthesizer. -/
def generateDesignTokens (parsedDesign : ParsedDesign) : DesignTokens :=
  { colors := generateColorTokens parsedDesign.colors
    typography := generateTypographyTokens parsedDesign.textStyles
    spacing := generateSpacingTokens (allSpacingValues parsedDesign)
    borderRadius := generateBorderRadiusTokens parsedDesign.borderRadius }

/-! ## Declarative (specification-level) descriptions

The following definitions restate, in the words of the specification, what the
extraction engine and synthesizer are claimed to compute: pre-order candidate
enumerations, and threshold naming written exactly as the spec lists it. The
refinement theorems below compare them with the embedded source functions. -/

mutual

/-- Pre-order enumeration of the raw styles of TEXT nodes carrying a style. -/
def textCandidatesNode : FigmaNode → List RawTextStyle
  | .mk ty _ _ _ st _ _ _ _ _ _ _ cs =>
    (if ty = "TEXT" then
      match st with
      | some s => [s]
      | none => []
    else []) ++ textCandidatesList cs

/-- Pre-order enumeration of raw text styles over a forest. -/
def textCandidatesList : List FigmaNode → List RawTextStyle
  | [] => []
  | n :: ns => textCandidatesNode n ++ textCandidatesList ns

end

/-- The keyed candidate stream extractTextStyles feeds to its Map. -/
def textPairs (nodes : List FigmaNode) : List (String × ParsedTextStyle) :=
  (textCandidatesList nodes).map (fun s => (textStyleKey s, parsedOfStyle s))

/-- The keyed ParsedColor candidates a single paint entry contributes: one
candidate for a SOLID paint with a populated color, none otherwise. -/
def paintPairs (fill : Paint) : List (String × ParsedColor) :=
  if fill.type = "SOLID" then
    match fill.color with
    | some c => [(rgbToHex c.r c.g c.b, mkParsedColor c)]
    | none => []
  else []

/-- The candidates an effects entry contributes: any effect carrying a color
field is treated as a SOLID paint, regardless of its type tag. -/
def effectPairs (e : Paint) : List (String × ParsedColor) :=
  match e.color with
  | some c => paintPairs ⟨"SOLID", some c, none⟩
  | none => []

mutual

/-- Pre-order keyed color candidates of one node: fills, then strokes, then
effects, then the children in order. -/
def colorPairsNode : FigmaNode → List (String × ParsedColor)
  | .mk _ fills strokes effects _ _ _ _ _ _ _ _ cs =>
    (fills.getD []).flatMap paintPairs
      ++ (strokes.getD []).flatMap paintPairs
      ++ (effects.getD []).flatMap effectPairs
      ++ colorPairsList cs

/-- Pre-order keyed color candidates of a forest. -/
def colorPairsList : List FigmaNode → List (String × ParsedColor)
  | [] => []
  | n :: ns => colorPairsNode n ++ colorPairsList ns

end

mutual

/-- Pre-order border-radius contributions of one node: a single cornerRadius
number, or the four numbers of a four-corner record, independently. -/
def radiiValuesNode : FigmaNode → List ℚ
  | .mk _ _ _ _ _ _ _ _ _ _ _ cr cs =>
    (match cr with
     | some (.single v) => [v]
     | some (.corners tl tr bl br) => [tl, tr, bl, br]
     | none => []) ++ radiiValuesList cs

/-- Pre-order border-radius contributions of a forest. -/
def radiiValuesList : List FigmaNode → List ℚ
  | [] => []
  | n :: ns => radiiValuesNode n ++ radiiValuesList ns

end

/-- The spec wording of the color classification, section 4.2: brightness
0.299 r + 0.587 g + 0.114 b, then the five branches in exact precedence,
returning the category together with the name for index i. -/
def specColorClass (c : ParsedColor) (i : ℕ) : ColorCategory × String :=
  let B := 0.299 * c.r + 0.587 * c.g + 0.114 * c.b
  if B < 0.3 then (.neutral, "neutral-" ++ toString (i + 1) ++ "-dark")
  else if B > 0.7 then (.neutral, "neutral-" ++ toString (i + 1) ++ "-light")
  else if c.r > c.g ∧ c.r > c.b then (.primary, "primary-" ++ toString (i + 1))
  else if c.g > c.r ∧ c.g > c.b then (.secondary, "secondary-" ++ toString (i + 1))
  else (.semantic, "semantic-" ++ toString (i + 1))

/-- The spec wording of typography naming, section 4.2: size thresholds
largest first, with a weight qualifier chosen per size band. -/
def specTypographyName (style : ParsedTextStyle) : String :=
  if style.fontSize ≥ 32 then
    if style.fontWeight ≥ 700 then "heading-bold" else "heading-regular"
  else if style.fontSize ≥ 24 then
    if style.fontWeight ≥ 600 then "subheading-semibold" else "subheading-regular"
  else if style.fontSize ≥ 18 then
    if style.fontWeight ≥ 500 then "body-large-medium" else "body-large-regular"
  else if style.fontSize ≥ 16 then
    if style.fontWeight ≥ 500 then "body-medium" else "body-regular"
  else if style.fontSize ≥ 14 then
    if style.fontWeight ≥ 500 then "body-small-medium" else "body-small-regular"
  else
    if style.fontWeight ≥ 500 then "caption-medium" else "caption-regular"

/-- The spec wording of spacing-token naming, section 4.2: value thresholds
with the 0-based position in the sorted-deduplicated sequence. -/
def specSpacingName (value : ℚ) (index : ℕ) : String :=
  if value = 0 then "none"
  else if value ≤ 4 then "xs-" ++ toString index
  else if value ≤ 8 then "sm-" ++ toString index
  else if value ≤ 16 then "md-" ++ toString index
  else if value ≤ 24 then "lg-" ++ toString index
  else if value ≤ 32 then "xl-" ++ toString index
  else "xxl-" ++ toString index

/-- The name shape that agrees with a given category: the neutral names carry
a dark or light suffix chosen by brightness, the others are the category
word followed by the 1-based index. -/
def nameOfCategory (cat : ColorCategory) (c : ParsedColor) (i : ℕ) : String :=
  match cat with
  | .neutral =>
    if brightness c < 0.3 then "neutral-" ++ toString (i + 1) ++ "-dark"
    else "neutral-" ++ toString (i + 1) ++ "-light"
  | .primary => "primary-" ++ toString (i + 1)
  | .secondary => "secondary-" ++ toString (i + 1)
  | .semantic => "semantic-" ++ toString (i + 1)

/-- A color token whose name string exhibits exactly the prefix of its
category field, for some 1-based index. -/
def nameMatchesCategory (t : ColorToken) : Prop :=
  ∃ k : ℕ,
    match t.category with
    | .neutral => t.name = "neutral-" ++ toString k ++ "-dark"
        ∨ t.name = "neutral-" ++ toString k ++ "-light"
    | .primary => t.name = "primary-" ++ toString k
    | .secondary => t.name = "secondary-" ++ toString k
    | .semantic => t.name = "semantic-" ++ toString k

/-- The spacing values gathered by generateDesignTokens when the margin
branches are removed: only auto-layout paddings and spacing, spacing-record
paddings and gaps. -/
def spacingValuesNoMargin (parsedDesign : ParsedDesign) : List ℚ :=
  (parsedDesign.autoLayouts.flatMap (fun l =>
    [l.padding.left, l.padding.right, l.padding.top, l.padding.bottom, l.spacing]))
  ++ (parsedDesign.spacing.flatMap (fun s =>
    ([s.padding.map PaddingBox.left, s.padding.map PaddingBox.right,
      s.padding.map PaddingBox.top, s.padding.map PaddingBox.bottom,
      s.gap]).filterMap id))

/-- The typography Map key as a function of the (fontFamily, fontSize,
fontWeight) triple alone; typographyKey factors through it. -/
def tripleKey (t : String × ℚ × ℚ) : String :=
  t.1 ++ "-" ++ toString t.2.1 ++ "-" ++ toString t.2.2

/-! ## Concrete inputs used in counterexamples and witnesses -/

/-- A raw style with no fontFamily (fontSize 16, fontWeight 400). -/
def styleNoFamily : RawTextStyle := ⟨none, some 16, some 400, none, none, none⟩

/-- A raw style with fontFamily Inter, fontSize 16, fontWeight 400. -/
def styleInter : RawTextStyle := ⟨some "Inter", some 16, some 400, none, none, none⟩

/-- A raw style with no fontSize (fontFamily Inter, fontWeight 400). -/
def styleNoSize : RawTextStyle := ⟨some "Inter", none, some 400, none, none, none⟩

/-- A raw style with fontSize 20 and an explicit numeric line height of 0. -/
def styleLH0 : RawTextStyle := ⟨none, some 20, none, some (.num 0), none, none⟩

/-- A raw style with a value-unit line height pair and numeric letter spacing. -/
def styleVU : RawTextStyle :=
  ⟨some "Inter", some 20, some 400, some (.vu 24 "PIXELS"), some (.num 1), none⟩

/-- A TEXT node carrying the given style and nothing else. -/
def textNode (s : RawTextStyle) : FigmaNode :=
  .mk "TEXT" none none none (some s) none none none none none none none []

/-- A dark gray parsed color, brightness 0.1. -/
def darkGray : ParsedColor := ⟨0.1, 0.1, 0.1, 1, "#1A1A1A", "rgba(26, 26, 26, 1.00)"⟩

/-- A red-dominant parsed color, brightness 0.3794. -/
def redDominant : ParsedColor := ⟨0.8, 0.2, 0.2, 1, "#CC3333", "rgba(204, 51, 51, 1.00)"⟩

/-- A pure red SOLID fill paint. -/
def redFill : Paint := ⟨"SOLID", some ⟨1, 0, 0, some 1⟩, none⟩

/-- A rectangle node with a single red SOLID fill. -/
def redNode : FigmaNode :=
  .mk "RECTANGLE" (some [redFill]) none none none none none none none none none none []

/-- The ParsedColor extracted from the red fill. -/
def redParsed : ParsedColor := ⟨1, 0, 0, 1, "#FF0000", "rgba(255, 0, 0, 1.00)"⟩

/-- A frame node with paddingLeft 4 and itemSpacing 8. -/
def padNode : FigmaNode :=
  .mk "FRAME" none none none none none (some 4) none none none (some 8) none []

/-- A node with the single cornerRadius 8. -/
def crNodeA : FigmaNode :=
  .mk "RECTANGLE" none none none none none none none none none none
    (some (.single 8)) []

/-- A node with a four-corner cornerRadius record 4, 8, 2, 4. -/
def crNodeB : FigmaNode :=
  .mk "RECTANGLE" none none none none none none none none none none
    (some (.corners 4 8 2 4)) []

/-! ## Library lemmas on the JavaScript container models -/

theorem mem_firstByKey {α : Type} {x : String × α} :
    ∀ {l : List (String × α)}, x ∈ firstByKey l → x ∈ l := by
  intro l
  induction l using firstByKey.induct with
  | case1 => simp [firstByKey]
  | case2 p ps ih =>
    intro hx
    rw [firstByKey, List.mem_cons] at hx
    rcases hx with h | h
    · simp [h]
    · exact List.mem_cons_of_mem _ (List.mem_of_mem_filter (ih h))

theorem keys_nodup_firstByKey {α : Type} :
    ∀ l : List (String × α), ((firstByKey l).map Prod.fst).Nodup := by
  intro l
  induction l using firstByKey.induct with
  | case1 => simp [firstByKey]
  | case2 p ps ih =>
    rw [firstByKey]
    simp only [List.map_cons, List.nodup_cons]
    refine ⟨?_, ih⟩
    intro hmem
    rcases List.mem_map.1 hmem with ⟨q, hq, hkey⟩
    have hqf := mem_firstByKey hq
    have := List.of_mem_filter hqf
    simp only [bne_iff_ne, ne_eq] at this
    exact this hkey

theorem foldl_insertKV_eq {α : Type} :
    ∀ (l : List (String × α)) (acc : List (String × α)),
      l.foldl insertKV acc
        = acc ++ firstByKey (l.filter (fun p => decide (p.1 ∉ acc.map Prod.fst))) := by
  intro l
  induction l with
  | nil => intro acc; simp [firstByKey]
  | cons p ps ih =>
    intro acc
    by_cases h : p.1 ∈ acc.map Prod.fst
    · have h1 : insertKV acc p = acc := by simp [insertKV, h]
      have h2 : (List.filter (fun q => decide (q.1 ∉ acc.map Prod.fst)) (p :: ps))
          = List.filter (fun q => decide (q.1 ∉ acc.map Prod.fst)) ps := by
        simp [List.filter_cons, h]
      rw [List.foldl_cons, h1, h2]
      exact ih acc
    · have h1 : insertKV acc p = acc ++ [p] := by simp [insertKV, h]
      have h2 : (List.filter (fun q => decide (q.1 ∉ acc.map Prod.fst)) (p :: ps))
          = p :: List.filter (fun q => decide (q.1 ∉ acc.map Prod.fst)) ps := by
        simp [List.filter_cons, h]
      have h3 : ps.filter (fun q => decide (q.1 ∉ (acc ++ [p]).map Prod.fst))
          = (ps.filter (fun q => decide (q.1 ∉ acc.map Prod.fst))).filter
              (fun q => q.1 != p.1) := by
        rw [List.filter_filter]
        apply List.filter_congr
        intro q _
        by_cases h4 : q.1 ∈ List.map Prod.fst acc <;> by_cases h5 : q.1 = p.1 <;>
          simp [h4, h5, List.map_append]
    -- combine
      calc (p :: ps).foldl insertKV acc
          = ps.foldl insertKV (acc ++ [p]) := by rw [List.foldl_cons, h1]
        _ = (acc ++ [p]) ++ firstByKey (ps.filter
              (fun q => decide (q.1 ∉ (acc ++ [p]).map Prod.fst))) := ih _
        _ = acc ++ (p :: firstByKey ((ps.filter
              (fun q => decide (q.1 ∉ acc.map Prod.fst))).filter
              (fun q => q.1 != p.1))) := by rw [h3, List.append_assoc]; rfl
        _ = acc ++ firstByKey (List.filter
              (fun q => decide (q.1 ∉ acc.map Prod.fst)) (p :: ps)) := by
              rw [h2, firstByKey]

theorem foldl_insertKV_nil {α : Type} (l : List (String × α)) :
    l.foldl insertKV [] = firstByKey l := by
  have := foldl_insertKV_eq l []
  simpa using this

theorem mem_jsMapIdx {α β : Type} {f : α → ℕ → β} :
    ∀ {l : List α} {i : ℕ} {b : β}, b ∈ jsMapIdx l i f →
      ∃ a j, a ∈ l ∧ b = f a j := by
  intro l
  induction l with
  | nil => intro i b h; simp [jsMapIdx] at h
  | cons a as ih =>
    intro i b h
    rw [jsMapIdx, List.mem_cons] at h
    rcases h with h | h
    · exact ⟨a, i, by simp, h⟩
    · rcases ih h with ⟨x, j, hx, hb⟩
      exact ⟨x, j, by simp [hx], hb⟩

theorem jsMapIdx_map_eq {α β γ : Type} {f : α → ℕ → β} {g : β → γ} {h : α → γ}
    (hfg : ∀ a i, g (f a i) = h a) :
    ∀ (l : List α) (i : ℕ), (jsMapIdx l i f).map g = l.map h := by
  intro l
  induction l with
  | nil => intro i; simp [jsMapIdx]
  | cons a as ih => intro i; simp [jsMapIdx, hfg, ih]

theorem jsMapIdx_congr {α β : Type} {f g : α → ℕ → β}
    (hfg : ∀ a i, f a i = g a i) :
    ∀ (l : List α) (i : ℕ), jsMapIdx l i f = jsMapIdx l i g := by
  intro l
  induction l with
  | nil => intro i; simp [jsMapIdx]
  | cons a as ih => intro i; simp [jsMapIdx, hfg, ih]

theorem jsMapIdx_value {f : ℚ → ℕ → SpacingToken} :
    ∀ (m : List ℚ) (i : ℕ), (∀ v j, (f v j).value = v) →
      (jsMapIdx m i f).map SpacingToken.value = m := by
  intro m
  induction m with
  | nil => intro i _; rfl
  | cons v vs ih => intro i hf; simp [jsMapIdx, hf, ih _ hf]

theorem insertAsc_perm (v : ℚ) : ∀ l : List ℚ, List.Perm (insertAsc v l) (v :: l) := by
  intro l
  induction l with
  | nil => simp [insertAsc]
  | cons w ws ih =>
    rw [insertAsc]
    by_cases h : v ≤ w
    · simp [h]
    · simp only [h, if_false]
      exact (ih.cons w).trans (List.Perm.swap v w ws)

theorem sortAsc_perm : ∀ l : List ℚ, List.Perm (sortAsc l) l := by
  intro l
  induction l with
  | nil => simp [sortAsc]
  | cons w ws ih =>
    have : sortAsc (w :: ws) = insertAsc w (sortAsc ws) := rfl
    rw [this]
    exact (insertAsc_perm w (sortAsc ws)).trans (ih.cons w)

theorem mem_sortAsc {w : ℚ} {l : List ℚ} : w ∈ sortAsc l ↔ w ∈ l :=
  (sortAsc_perm l).mem_iff

theorem sorted_insertAsc {v : ℚ} :
    ∀ {l : List ℚ}, l.Pairwise (· ≤ ·) → (insertAsc v l).Pairwise (· ≤ ·) := by
  intro l
  induction l with
  | nil => intro _; simp [insertAsc]
  | cons w ws ih =>
    intro hs
    rw [List.pairwise_cons] at hs
    rw [insertAsc]
    by_cases h : v ≤ w
    · rw [if_pos h, List.pairwise_cons]
      refine ⟨?_, List.pairwise_cons.2 hs⟩
      intro b hb
      rcases List.mem_cons.1 hb with rfl | hb
      · exact h
      · exact le_trans h (hs.1 b hb)
    · rw [if_neg h, List.pairwise_cons]
      refine ⟨?_, ih hs.2⟩
      intro b hb
      have hb' := (insertAsc_perm v ws).mem_iff.1 hb
      rcases List.mem_cons.1 hb' with rfl | hb'
      · exact le_of_lt (lt_of_not_le h)
      · exact hs.1 b hb'

theorem sorted_sortAsc : ∀ l : List ℚ, (sortAsc l).Pairwise (· ≤ ·) := by
  intro l
  induction l with
  | nil => simp [sortAsc]
  | cons w ws ih => exact sorted_insertAsc ih

theorem mem_foldl_insertNew :
    ∀ (l acc : List ℚ) (w : ℚ), w ∈ l.foldl insertNew acc ↔ w ∈ acc ∨ w ∈ l := by
  intro l
  induction l with
  | nil => intro acc w; simp
  | cons v vs ih =>
    intro acc w
    rw [List.foldl_cons, ih]
    unfold insertNew
    by_cases h : v ∈ acc
    · rw [if_pos h]
      constructor
      · rintro (h1 | h1)
        · exact Or.inl h1
        · exact Or.inr (List.mem_cons_of_mem _ h1)
      · rintro (h1 | h1)
        · exact Or.inl h1
        · rcases List.mem_cons.1 h1 with rfl | h1
          · exact Or.inl h
          · exact Or.inr h1
    · rw [if_neg h]
      simp only [List.mem_append, List.mem_singleton, List.mem_cons]
      tauto

theorem nodup_foldl_insertNew :
    ∀ (l acc : List ℚ), acc.Nodup → (l.foldl insertNew acc).Nodup := by
  intro l
  induction l with
  | nil => intro acc h; simpa using h
  | cons v vs ih =>
    intro acc h
    rw [List.foldl_cons]
    apply ih
    unfold insertNew
    by_cases hv : v ∈ acc
    · rwa [if_pos hv]
    · rw [if_neg hv]
      simp [List.nodup_append, h, hv]

theorem mem_jsSetDedup {w : ℚ} {l : List ℚ} : w ∈ jsSetDedup l ↔ w ∈ l := by
  unfold jsSetDedup
  rw [mem_foldl_insertNew]
  simp

theorem nodup_jsSetDedup (l : List ℚ) : (jsSetDedup l).Nodup :=
  nodup_foldl_insertNew l [] List.nodup_nil

theorem pairwise_lt_sortAsc_of_nodup {l : List ℚ} (h : l.Nodup) :
    (sortAsc l).Pairwise (· < ·) := by
  have hs := sorted_sortAsc l
  have hn : (sortAsc l).Nodup := ((sortAsc_perm l).nodup_iff).2 h
  exact ((hs.and hn).imp (fun hab => lt_of_le_of_ne hab.1 hab.2))

/-! ## Traversal refinement: the imperative folds equal dedup of the
pre-order candidate streams -/

mutual

theorem extractTextStylesNode_eq (n : FigmaNode)
    (acc : List (String × ParsedTextStyle)) :
    extractTextStylesNode n acc
      = ((textCandidatesNode n).map
          (fun s => (textStyleKey s, parsedOfStyle s))).foldl insertKV acc := by
  cases n with
  | mk ty fills strokes effects st lm pl pr pt pb isp cr cs =>
    simp only [extractTextStylesNode.eq_def, textCandidatesNode.eq_def]
    rw [List.map_append, List.foldl_append, extractTextStylesList_eq]
    congr 1
    by_cases hty : ty = "TEXT"
    · cases st with
      | none => simp [hty]
      | some s => simp [hty]
    · simp [hty]

theorem extractTextStylesList_eq (ns : List FigmaNode)
    (acc : List (String × ParsedTextStyle)) :
    extractTextStylesList ns acc
      = ((textCandidatesList ns).map
          (fun s => (textStyleKey s, parsedOfStyle s))).foldl insertKV acc := by
  cases ns with
  | nil => rw [extractTextStylesList, textCandidatesList]; rfl
  | cons n ns =>
    rw [extractTextStylesList, textCandidatesList]
    rw [List.map_append, List.foldl_append, extractTextStylesList_eq,
      extractTextStylesNode_eq]

end

/-- extractTextStyles equals first-seen-wins deduplication, on the key
textStyleKey, of the pre-order raw style candidates, storing parsedOfStyle
of the first raw style seen per key. -/
theorem extractTextStyles_spec (nodes : List FigmaNode) :
    extractTextStyles nodes = (firstByKey (textPairs nodes)).map Prod.snd := by
  unfold extractTextStyles textPairs
  rw [extractTextStylesList_eq, foldl_insertKV_nil]

theorem extractColorEntry_eq (p : Paint) (acc : List (String × ParsedColor)) :
    extractColorEntry p acc = (paintPairs p).foldl insertKV acc := by
  rcases p with ⟨ty, color, op⟩
  by_cases hty : ty = "SOLID"
  · cases color with
    | none => simp [extractColorEntry, paintPairs, hty]
    | some c => simp [extractColorEntry, paintPairs, hty]
  · simp [extractColorEntry, paintPairs, hty]

theorem foldl_colorEntry_eq (ps : List Paint) :
    ∀ acc : List (String × ParsedColor),
      ps.foldl (fun a p => extractColorEntry p a) acc
        = (ps.flatMap paintPairs).foldl insertKV acc := by
  induction ps with
  | nil => intro acc; rfl
  | cons p ps ih =>
    intro acc
    rw [List.foldl_cons, List.flatMap_cons, List.foldl_append,
      extractColorEntry_eq, ih]

theorem foldl_effectEntry_eq (ps : List Paint) :
    ∀ acc : List (String × ParsedColor),
      ps.foldl (fun a e =>
        match e.color with
        | some c => extractColorEntry ⟨"SOLID", some c, none⟩ a
        | none => a) acc
        = (ps.flatMap effectPairs).foldl insertKV acc := by
  induction ps with
  | nil => intro acc; rfl
  | cons e es ih =>
    intro acc
    rw [List.foldl_cons, List.flatMap_cons, List.foldl_append, ih]
    congr 1
    rcases e with ⟨ty, color, op⟩
    cases color with
    | none => rfl
    | some c => exact extractColorEntry_eq _ _

mutual

theorem extractColorsNode_eq (n : FigmaNode) (acc : List (String × ParsedColor)) :
    extractColorsNode n acc = (colorPairsNode n).foldl insertKV acc := by
  cases n with
  | mk ty fills strokes effects st lm pl pr pt pb isp cr cs =>
    rw [extractColorsNode, colorPairsNode]
    rw [List.foldl_append, List.foldl_append, List.foldl_append,
      extractColorsList_eq, foldl_colorEntry_eq, foldl_colorEntry_eq,
      foldl_effectEntry_eq]

theorem extractColorsList_eq (ns : List FigmaNode) (acc : List (String × ParsedColor)) :
    extractColorsList ns acc = (colorPairsList ns).foldl insertKV acc := by
  cases ns with
  | nil => rw [extractColorsList, colorPairsList]; rfl
  | cons n ns =>
    rw [extractColorsList, colorPairsList]
    rw [List.foldl_append, extractColorsList_eq, extractColorsNode_eq]

end

/-- extractColors equals first-seen-wins deduplication, keyed by the hex
string, of the pre-order color candidates (fills, then strokes, then effects,
per node, parent before children). -/
theorem extractColors_spec (nodes : List FigmaNode) :
    extractColors nodes = (firstByKey (colorPairsList nodes)).map Prod.snd := by
  unfold extractColors
  rw [extractColorsList_eq, foldl_insertKV_nil]

mutual

theorem collectRadiiNode_mem (n : FigmaNode) (acc : List ℚ) (w : ℚ) :
    w ∈ collectRadiiNode n acc ↔ w ∈ acc ∨ w ∈ radiiValuesNode n := by
  cases n with
  | mk ty fills strokes effects st lm pl pr pt pb isp cr cs =>
    simp only [collectRadiiNode.eq_def, radiiValuesNode.eq_def]
    rw [collectRadiiList_mem]
    cases cr with
    | none => simp
    | some c =>
      cases c with
      | single v =>
        simp only [insertNew, List.mem_append]
        by_cases hv : v ∈ acc
        · rw [if_pos hv]
          constructor
          · rintro (h | h)
            · exact Or.inl h
            · exact Or.inr (Or.inr h)
          · rintro (h | h | h)
            · exact Or.inl h
            · rcases List.mem_singleton.1 h with rfl
              exact Or.inl hv
            · exact Or.inr h
        · rw [if_neg hv]
          simp only [List.mem_append, List.mem_singleton]
          tauto
      | corners tl tr bl br =>
        rw [mem_foldl_insertNew]
        simp only [List.mem_append]
        tauto

theorem collectRadiiList_mem (ns : List FigmaNode) (acc : List ℚ) (w : ℚ) :
    w ∈ collectRadiiList ns acc ↔ w ∈ acc ∨ w ∈ radiiValuesList ns := by
  cases ns with
  | nil => rw [collectRadiiList, radiiValuesList]; simp
  | cons n ns =>
    rw [collectRadiiList, radiiValuesList]
    rw [collectRadiiList_mem, collectRadiiNode_mem]
    simp only [List.mem_append]
    tauto

end

mutual

theorem extractSpacingNode_margin (n : FigmaNode) (acc : List ParsedSpacing)
    (h : ∀ s ∈ acc, s.margin = none) :
    ∀ s ∈ extractSpacingNode n acc, s.margin = none := by
  cases n with
  | mk ty fills strokes effects st lm pl pr pt pb isp cr cs =>
    rw [extractSpacingNode]
    apply extractSpacingList_margin
    by_cases hc : (spacingDataOf pl pr pt pb isp).padding.isSome
        || (spacingDataOf pl pr pt pb isp).gap.isSome
    · rw [if_pos hc]
      intro s hs
      rcases List.mem_append.1 hs with hs | hs
      · exact h s hs
      · rcases List.mem_singleton.1 hs with rfl
        rfl
    · rw [if_neg hc]; exact h

theorem extractSpacingList_margin (ns : List FigmaNode) (acc : List ParsedSpacing)
    (h : ∀ s ∈ acc, s.margin = none) :
    ∀ s ∈ extractSpacingList ns acc, s.margin = none := by
  cases ns with
  | nil => rw [extractSpacingList]; exact h
  | cons n ns =>
    rw [extractSpacingList]
    exact extractSpacingList_margin ns _ (extractSpacingNode_margin n acc h)

end

/-! ## Color classification helpers -/

theorem colorClass_eq (c : ParsedColor) (i : ℕ) (allC : List ParsedColor) :
    (categorizeColor c i allC, generateColorName c i allC) = specColorClass c i := by
  have hB : 0.299 * c.r + 0.587 * c.g + 0.114 * c.b = brightness c := by
    unfold brightness; ring
  simp only [categorizeColor, generateColorName, specColorClass, hB]
  by_cases h1 : brightness c < 0.3
  · simp [h1]
  · by_cases h2 : brightness c > 0.7
    · simp [h1, h2]
    · by_cases h3 : c.r > c.g ∧ c.r > c.b
      · simp [h1, h2, h3]
      · by_cases h4 : c.g > c.r ∧ c.g > c.b
        · simp [h1, h2, h3, h4]
        · simp [h1, h2, h3, h4]

theorem colorName_eq_nameOfCategory (c : ParsedColor) (i : ℕ)
    (allC : List ParsedColor) :
    generateColorName c i allC = nameOfCategory (categorizeColor c i allC) c i := by
  unfold generateColorName categorizeColor nameOfCategory
  by_cases h1 : brightness c < 0.3
  · simp [h1]
  · by_cases h2 : brightness c > 0.7
    · simp [h1, h2]
    · by_cases h3 : c.r > c.g ∧ c.r > c.b
      · simp [h1, h2, h3]
      · by_cases h4 : c.g > c.r ∧ c.g > c.b
        · simp [h1, h2, h3, h4]
        · simp [h1, h2, h3, h4]

/-! ## Claim theorems -/

/-- C2: for every ParsedColor and index i, the pair (category, name) follows
the exact five-branch precedence of the spec on brightness
0.299 r + 0.587 g + 0.114 b (specColorClass); in particular the color
(0.1, 0.1, 0.1) is neutral with name neutral-(i+1)-dark, and (0.8, 0.2, 0.2)
is primary with name primary-(i+1). -/
theorem C2_color_classification :
    (∀ (c : ParsedColor) (i : ℕ) (allC : List ParsedColor),
      (categorizeColor c i allC, generateColorName c i allC) = specColorClass c i)
    ∧ (∀ i : ℕ,
        (categorizeColor darkGray i [], generateColorName darkGray i [])
          = (ColorCategory.neutral, "neutral-" ++ toString (i + 1) ++ "-dark"))
    ∧ (∀ i : ℕ,
        (categorizeColor redDominant i [], generateColorName redDominant i [])
          = (ColorCategory.primary, "primary-" ++ toString (i + 1)))
    ∧ (∀ colors, generateColorTokens colors
        = jsMapIdx colors 0 (fun c i =>
            { name := (specColorClass c i).2, value := c.hex, hex := c.hex
              rgba := c.rgba, category := (specColorClass c i).1 })) := by
  refine ⟨colorClass_eq, ?_, ?_, ?_⟩
  · intro i
    rw [colorClass_eq]
    have h : (0.299 : ℚ) * darkGray.r + 0.587 * darkGray.g + 0.114 * darkGray.b
        < 0.3 := by norm_num [darkGray]
    simp only [specColorClass]
    rw [if_pos h]
  · intro i
    rw [colorClass_eq]
    have h1 : ¬ ((0.299 : ℚ) * redDominant.r + 0.587 * redDominant.g
        + 0.114 * redDominant.b < 0.3) := by norm_num [redDominant]
    have h2 : ¬ ((0.299 : ℚ) * redDominant.r + 0.587 * redDominant.g
        + 0.114 * redDominant.b > 0.7) := by norm_num [redDominant]
    have h3 : redDominant.r > redDominant.g ∧ redDominant.r > redDominant.b := by
      norm_num [redDominant]
    simp only [specColorClass]
    rw [if_neg h1, if_neg h2, if_pos h3]
  · intro colors
    unfold generateColorTokens
    apply jsMapIdx_congr
    intro c i
    have h := colorClass_eq c i colors
    rw [show generateColorName c i colors = (specColorClass c i).2 from
        congrArg Prod.snd h,
      show categorizeColor c i colors = (specColorClass c i).1 from
        congrArg Prod.fst h]

/-- C7: the name returned by generateColorName always exhibits exactly the
prefix of the category returned by categorizeColor (nameOfCategory), and hence
in every token of generateColorTokens the name and category fields agree. -/
theorem C7_name_category_agreement :
    (∀ (c : ParsedColor) (i : ℕ) (allC : List ParsedColor),
      generateColorName c i allC = nameOfCategory (categorizeColor c i allC) c i)
    ∧ (∀ (colors : List ParsedColor) (t : ColorToken),
        t ∈ generateColorTokens colors → nameMatchesCategory t) := by
  refine ⟨colorName_eq_nameOfCategory, ?_⟩
  intro colors t ht
  obtain ⟨c, j, _, rfl⟩ := mem_jsMapIdx ht
  refine ⟨j + 1, ?_⟩
  rw [colorName_eq_nameOfCategory]
  cases hcat : categorizeColor c j colors with
  | neutral =>
    simp only [hcat, nameOfCategory]
    by_cases hb : brightness c < 0.3
    · rw [if_pos hb]; left; rfl
    · rw [if_neg hb]; right; rfl
  | primary => simp [hcat, nameOfCategory]
  | secondary => simp [hcat, nameOfCategory]
  | semantic => simp [hcat, nameOfCategory]

/-- C7 witness: applying the agreement to the concrete token generated for
the dark gray color at index 0. -/
theorem C7_name_category_agreement_witness :
    nameMatchesCategory
      { name := generateColorName darkGray 0 [darkGray]
        value := darkGray.hex, hex := darkGray.hex, rgba := darkGray.rgba
        category := categorizeColor darkGray 0 [darkGray] } :=
  C7_name_category_agreement.2 [darkGray] _ (by simp [generateColorTokens, jsMapIdx])

/-- C9: the empty forest yields empty collections from every extraction
function and from the whole synthesis pipeline, and never an error (all the
embedded functions are total). -/
theorem C9_empty_input :
    extractTextStyles [] = [] ∧ extractColors [] = []
    ∧ extractAutoLayoutInfo [] = [] ∧ extractSpacing [] = []
    ∧ parseFigmaNodes [] = ⟨[], [], [], [], []⟩
    ∧ generateDesignTokens (parseFigmaNodes []) = ⟨[], [], [], []⟩ :=
  ⟨rfl, rfl, rfl, rfl, rfl, rfl⟩

/-- C1 counterexample: a TEXT node with an absent fontFamily and one with
fontFamily Inter (both fontSize 16, fontWeight 400) produce two output
entries, not the single entry the claim predicts: the Map key defaults the
fontFamily to Unknown, not Inter. -/
theorem C1_counterexample :
    (extractTextStyles [textNode styleNoFamily, textNode styleInter]).length = 2 := by
  decide

/-- C1 (amended): extractTextStyles deduplicates on textStyleKey, whose
defaults are fontFamily Unknown, fontSize 0, fontWeight 400 (not Inter and
16, which are only the defaults of the stored output fields); per key the
first-encountered style wins (firstByKey). Consequently an absent fontFamily
and fontFamily Inter give distinct keys and two entries, and likewise an
absent fontSize and fontSize 16. -/
theorem C1_text_style_dedup_key :
    (∀ nodes, extractTextStyles nodes = (firstByKey (textPairs nodes)).map Prod.snd)
    ∧ textStyleKey styleNoFamily = "Unknown-16-400"
    ∧ textStyleKey styleInter = "Inter-16-400"
    ∧ textStyleKey styleNoSize = "Inter-0-400"
    ∧ (extractTextStyles [textNode styleNoFamily, textNode styleInter]).length = 2
    ∧ (extractTextStyles [textNode styleNoSize, textNode styleInter]).length = 2 :=
  ⟨extractTextStyles_spec, by decide, by decide, by decide, by decide, by decide⟩

/-- C6 counterexample: a TEXT node with fontSize 20 and an explicit numeric
line height of 0 is extracted with lineHeight 20 (the fontSize fallback),
not the explicit value 0 the claim predicts: 0 is falsy in the source
disjunction over the line height. -/
theorem C6_counterexample :
    (extractTextStyles [textNode styleLH0]).map ParsedTextStyle.lineHeight = [20] := by
  decide

/-- C6 (amended): every extracted style comes from a first-seen raw candidate
via parsedOfStyle, and its lineHeight is the explicit numeric line height
when that is nonzero, the raw value of a value-unit pair taken as-is, and
otherwise (absent or numeric 0) the output fontSize; letterSpacing is the
explicit numeric value or the pair value, defaulting to 0 when absent. -/
theorem C6_line_height_normalization :
    ∀ (nodes : List FigmaNode) (p : ParsedTextStyle), p ∈ extractTextStyles nodes →
      ∃ st, st ∈ textCandidatesList nodes ∧ p = parsedOfStyle st
        ∧ (∀ v u, st.lineHeight = some (.vu v u) → p.lineHeight = v)
        ∧ (∀ v, st.lineHeight = some (.num v) → v ≠ 0 → p.lineHeight = v)
        ∧ ((st.lineHeight = none ∨ st.lineHeight = some (.num 0)) →
            p.lineHeight = p.fontSize)
        ∧ (∀ v u, st.letterSpacing = some (.vu v u) → p.letterSpacing = v)
        ∧ (∀ v, st.letterSpacing = some (.num v) → p.letterSpacing = v)
        ∧ (st.letterSpacing = none → p.letterSpacing = 0) := by
  intro nodes p hp
  rw [extractTextStyles_spec] at hp
  obtain ⟨pr, hpr, rfl⟩ := List.mem_map.1 hp
  have hpr2 := mem_firstByKey hpr
  unfold textPairs at hpr2
  obtain ⟨st, hst, heq⟩ := List.mem_map.1 hpr2
  subst heq
  refine ⟨st, hst, rfl, ?_, ?_, ?_, ?_, ?_, ?_⟩
  · intro v u h; simp [parsedOfStyle, h]
  · intro v h hv; simp [parsedOfStyle, h, hv]
  · intro h; rcases h with h | h <;> simp [parsedOfStyle, h]
  · intro v u h; simp [parsedOfStyle, h]
  · intro v h; by_cases hv : v = 0 <;> simp [parsedOfStyle, h, hv]
  · intro h; simp [parsedOfStyle, h]

/-- C6 witness: on a forest with one TEXT node whose line height is the
value-unit pair (24, PIXELS), the extracted lineHeight is the raw value 24. -/
theorem C6_line_height_witness : (parsedOfStyle styleVU).lineHeight = 24 := by
  obtain ⟨st, hst, heq, hvu, _⟩ :=
    C6_line_height_normalization [textNode styleVU] (parsedOfStyle styleVU) (by decide)
  have hs : st = styleVU := by
    simpa [textCandidatesList, textCandidatesNode, textNode] using hst
  subst hs
  exact hvu 24 "PIXELS" rfl

/-- C4: spacing token synthesis names the sorted-deduplicated values exactly
by the spec thresholds (specSpacingName) at their 0-based sorted position;
values [0, 2, 6, 20] give names none, xs-1, sm-2, lg-3; the token values are
strictly increasing and are exactly the input values; every token has
category gap; and generateDesignTokens feeds it the flat gathered list
allSpacingValues. -/
theorem C4_spacing_tokens :
    (∀ l, generateSpacingTokens l
        = jsMapIdx (sortAsc (jsSetDedup l)) 0
            (fun v i => ⟨specSpacingName v i, v, "gap"⟩))
    ∧ ((generateSpacingTokens [0, 2, 6, 20]).map SpacingToken.name
        = ["none", "xs-1", "sm-2", "lg-3"])
    ∧ (∀ l, ((generateSpacingTokens l).map SpacingToken.value).Pairwise (· < ·))
    ∧ (∀ l v, v ∈ (generateSpacingTokens l).map SpacingToken.value ↔ v ∈ l)
    ∧ (∀ l t, t ∈ generateSpacingTokens l → t.category = "gap")
    ∧ (∀ d, (generateDesignTokens d).spacing
        = generateSpacingTokens (allSpacingValues d)) := by
  have hval : ∀ l, (generateSpacingTokens l).map SpacingToken.value
      = sortAsc (jsSetDedup l) := by
    intro l
    unfold generateSpacingTokens
    apply jsMapIdx_value
    intro v j
    rfl
  refine ⟨?_, by decide, ?_, ?_, ?_, fun d => rfl⟩
  · intro l
    unfold generateSpacingTokens
    exact jsMapIdx_congr (fun a i => by unfold specSpacingName; rfl) _ 0
  · intro l
    rw [hval]
    exact pairwise_lt_sortAsc_of_nodup (nodup_jsSetDedup l)
  · intro l v
    rw [hval, mem_sortAsc, mem_jsSetDedup]
  · intro l t ht
    obtain ⟨v, j, _, rfl⟩ := mem_jsMapIdx ht
    rfl

/-- C4 witness: the single value 5 produces the token named sm-0 with
category gap. -/
theorem C4_spacing_tokens_witness : (SpacingToken.mk "sm-0" 5 "gap").category = "gap" :=
  C4_spacing_tokens.2.2.2.2.1 [5] (SpacingToken.mk "sm-0" 5 "gap") (by decide)

/-- C5: generateTypographyName agrees with the spec threshold table
(specTypographyName) for every style; the synthesizer re-deduplicates, so no
two output tokens share a (fontFamily, fontSize, fontWeight) triple even on a
duplicated input; and the styles (Inter, 32, 700) and (Inter, 16, 400) are
named heading-bold and body-regular. -/
theorem C5_typography_tokens :
    (∀ (st : ParsedTextStyle) (i : ℕ),
      generateTypographyName st i = specTypographyName st)
    ∧ (∀ l, ((generateTypographyTokens l).map
        (fun t => (t.fontFamily, t.fontSize, t.fontWeight))).Nodup)
    ∧ ((generateTypographyTokens
        [⟨"Inter", 32, 700, 40, 0, none⟩, ⟨"Inter", 16, 400, 24, 0, none⟩,
         ⟨"Inter", 32, 700, 48, 1, none⟩]).map TypographyToken.name
        = ["heading-bold", "body-regular"]) := by
  refine ⟨?_, ?_, by decide⟩
  · intro st i
    unfold generateTypographyName specTypographyName
    split_ifs <;> rfl
  · intro l
    unfold generateTypographyTokens
    have h1 : (l.foldl (fun acc s => insertKV acc (typographyKey s, s)) [])
        = firstByKey (l.map (fun s => (typographyKey s, s))) := by
      rw [← foldl_insertKV_nil, List.foldl_map]
    rw [h1]
    rw [jsMapIdx_map_eq
      (h := fun s => (s.fontFamily, s.fontSize, s.fontWeight)) (fun a i => rfl)]
    have h2 : ∀ x ∈ firstByKey (l.map (fun s => (typographyKey s, s))),
        x.1 = typographyKey x.2 := by
      intro x hx
      obtain ⟨s, _, heq⟩ := List.mem_map.1 (mem_firstByKey hx)
      rw [← heq]
    have h5 := keys_nodup_firstByKey (l.map (fun s => (typographyKey s, s)))
    have h4 : (firstByKey (l.map (fun s => (typographyKey s, s)))).map Prod.fst
        = (firstByKey (l.map (fun s => (typographyKey s, s)))).map
            (fun x => tripleKey (x.2.fontFamily, x.2.fontSize, x.2.fontWeight)) :=
      List.map_congr_left (fun x hx => by rw [h2 x hx]; rfl)
    rw [h4] at h5
    have h6 : (firstByKey (l.map (fun s => (typographyKey s, s)))).map
          (fun x => tripleKey (x.2.fontFamily, x.2.fontSize, x.2.fontWeight))
        = (((firstByKey (l.map (fun s => (typographyKey s, s)))).map Prod.snd).map
            (fun s => (s.fontFamily, s.fontSize, s.fontWeight))).map tripleKey := by
      rw [List.map_map, List.map_map]
      rfl
    rw [h6] at h5
    exact h5.of_map


/-- C8: for every forest the borderRadius sequence of parseFigmaNodes is
strictly increasing (sorted ascending with no duplicates by exact numeric
equality), its members are exactly the radius contributions of the forest
(radiiValuesList, where a four-corner record contributes its four numbers
independently); a mixed concrete forest with radii 8 and (4, 8, 2, 4)
yields [2, 4, 8]. -/
theorem C8_border_radius_sorted :
    (∀ nodes, ((parseFigmaNodes nodes).borderRadius).Pairwise (· < ·)
      ∧ (∀ v, v ∈ (parseFigmaNodes nodes).borderRadius ↔ v ∈ radiiValuesList nodes))
    ∧ (parseFigmaNodes [crNodeA, crNodeB]).borderRadius = [2, 4, 8] := by
  refine ⟨?_, by decide⟩
  intro nodes
  constructor
  · exact pairwise_lt_sortAsc_of_nodup (nodup_jsSetDedup _)
  · intro v
    show v ∈ sortAsc (jsSetDedup (collectRadiiList nodes [])) ↔ _
    rw [mem_sortAsc, mem_jsSetDedup, collectRadiiList_mem]
    simp

/-- C10: extractSpacing never produces a margin sub-record, so the spacing
values gathered by generateDesignTokens from a parsed forest coincide with
the gathering that omits the margin-reading branch entirely
(spacingValuesNoMargin). -/
theorem C10_no_margin :
    (∀ nodes s, s ∈ extractSpacing nodes → s.margin = none)
    ∧ (∀ nodes, (generateDesignTokens (parseFigmaNodes nodes)).spacing
        = generateSpacingTokens (spacingValuesNoMargin (parseFigmaNodes nodes))) := by
  have hm : ∀ nodes s, s ∈ extractSpacing nodes → s.margin = none := by
    intro nodes s hs
    exact extractSpacingList_margin nodes [] (by simp) s hs
  refine ⟨hm, ?_⟩
  intro nodes
  show generateSpacingTokens (allSpacingValues (parseFigmaNodes nodes))
      = generateSpacingTokens (spacingValuesNoMargin (parseFigmaNodes nodes))
  have key : ∀ s : ParsedSpacing, s.margin = none →
      ([s.padding.map PaddingBox.left, s.padding.map PaddingBox.right,
        s.padding.map PaddingBox.top, s.padding.map PaddingBox.bottom,
        s.margin.map PaddingBox.left, s.margin.map PaddingBox.right,
        s.margin.map PaddingBox.top, s.margin.map PaddingBox.bottom,
        s.gap]).filterMap id
      = ([s.padding.map PaddingBox.left, s.padding.map PaddingBox.right,
          s.padding.map PaddingBox.top, s.padding.map PaddingBox.bottom,
          s.gap]).filterMap id := by
    intro s h
    rw [h]
    rcases hp : s.padding with _ | p <;> rcases hg : s.gap with _ | g <;>
      simp [List.filterMap]
  have hflat : ∀ L : List ParsedSpacing, (∀ s ∈ L, s.margin = none) →
      L.flatMap (fun s =>
        ([s.padding.map PaddingBox.left, s.padding.map PaddingBox.right,
          s.padding.map PaddingBox.top, s.padding.map PaddingBox.bottom,
          s.margin.map PaddingBox.left, s.margin.map PaddingBox.right,
          s.margin.map PaddingBox.top, s.margin.map PaddingBox.bottom,
          s.gap]).filterMap id)
      = L.flatMap (fun s =>
        ([s.padding.map PaddingBox.left, s.padding.map PaddingBox.right,
          s.padding.map PaddingBox.top, s.padding.map PaddingBox.bottom,
          s.gap]).filterMap id) := by
    intro L
    induction L with
    | nil => intro _; rfl
    | cons s ss ih =>
      intro hl
      rw [List.flatMap_cons, List.flatMap_cons,
        ih (fun x hx => hl x (List.mem_cons_of_mem s hx)),
        key s (hl s (List.mem_cons_self s ss))]
  unfold allSpacingValues spacingValuesNoMargin
  simp only [parseFigmaNodes]
  rw [hflat (extractSpacing nodes) (hm nodes)]

/-- C10 witness: the spacing record extracted from a frame with paddingLeft 4
and itemSpacing 8 has no margin. -/
theorem C10_no_margin_witness :
    (ParsedSpacing.mk (some ⟨4, 0, 0, 0⟩) none (some 8)).margin = none :=
  C10_no_margin.1 [padNode] (ParsedSpacing.mk (some ⟨4, 0, 0, 0⟩) none (some 8))
    (by decide)

/-! ## Color candidate properties and claim C3 -/

theorem paintPairs_hex (p : Paint) :
    ∀ x ∈ paintPairs p, x.1 = x.2.hex ∧ x.2.hex = rgbToHex x.2.r x.2.g x.2.b := by
  intro x hx
  rcases p with ⟨ty, color, op⟩
  by_cases hty : ty = "SOLID"
  · cases color with
    | none => simp [paintPairs, hty] at hx
    | some c =>
      simp only [paintPairs, hty, if_true, List.mem_singleton] at hx
      subst hx
      exact ⟨rfl, rfl⟩
  · simp [paintPairs, hty] at hx

theorem effectPairs_hex (e : Paint) :
    ∀ x ∈ effectPairs e, x.1 = x.2.hex ∧ x.2.hex = rgbToHex x.2.r x.2.g x.2.b := by
  intro x hx
  rcases e with ⟨ty, color, op⟩
  cases color with
  | none => simp [effectPairs] at hx
  | some c => exact paintPairs_hex _ x hx

mutual

theorem colorPairsNode_hex (n : FigmaNode) :
    ∀ x ∈ colorPairsNode n, x.1 = x.2.hex ∧ x.2.hex = rgbToHex x.2.r x.2.g x.2.b := by
  cases n with
  | mk ty fills strokes effects st lm pl pr pt pb isp cr cs =>
    intro x hx
    rw [colorPairsNode] at hx
    rcases List.mem_append.1 hx with hx | hx
    · rcases List.mem_append.1 hx with hx | hx
      · rcases List.mem_append.1 hx with hx | hx
        · obtain ⟨p, _, hp⟩ := List.mem_flatMap.1 hx
          exact paintPairs_hex p x hp
        · obtain ⟨p, _, hp⟩ := List.mem_flatMap.1 hx
          exact paintPairs_hex p x hp
      · obtain ⟨e, _, he⟩ := List.mem_flatMap.1 hx
        exact effectPairs_hex e x he
    · exact colorPairsList_hex cs x hx

theorem colorPairsList_hex (ns : List FigmaNode) :
    ∀ x ∈ colorPairsList ns, x.1 = x.2.hex ∧ x.2.hex = rgbToHex x.2.r x.2.g x.2.b := by
  cases ns with
  | nil => intro x hx; simp [colorPairsList] at hx
  | cons n ns =>
    intro x hx
    rw [colorPairsList] at hx
    rcases List.mem_append.1 hx with hx | hx
    · exact colorPairsNode_hex n x hx
    · exact colorPairsList_hex ns x hx

end

/-- C3: extractColors is first-seen-wins deduplication, keyed by the
six-digit uppercase hex of the rounded channels, over the pre-order candidate
stream (fills, then strokes, then effects per node, parent before children,
effects contributing whenever they carry a color); hence no two output
entries share a hex, and every entry keeps the channels, alpha and hex of the
first paint seen for its hex. -/
theorem C3_extract_colors :
    ∀ nodes,
      extractColors nodes = (firstByKey (colorPairsList nodes)).map Prod.snd
      ∧ ((extractColors nodes).map ParsedColor.hex).Nodup
      ∧ (∀ p ∈ extractColors nodes, p.hex = rgbToHex p.r p.g p.b) := by
  intro nodes
  refine ⟨extractColors_spec nodes, ?_, ?_⟩
  · rw [extractColors_spec, List.map_map]
    have h1 : (firstByKey (colorPairsList nodes)).map (ParsedColor.hex ∘ Prod.snd)
        = (firstByKey (colorPairsList nodes)).map Prod.fst :=
      List.map_congr_left (fun x hx => by
        simp only [Function.comp_apply]
        exact ((colorPairsList_hex nodes x (mem_firstByKey hx)).1).symm)
    rw [h1]
    exact keys_nodup_firstByKey _
  · intro p hp
    rw [extractColors_spec] at hp
    obtain ⟨x, hx, rfl⟩ := List.mem_map.1 hp
    exact (colorPairsList_hex nodes x (mem_firstByKey hx)).2

theorem jsRound_one_255 : jsRound ((1 : ℚ) * 255) = 255 := by norm_num [jsRound]

theorem jsRound_zero_255 : jsRound ((0 : ℚ) * 255) = 0 := by norm_num [jsRound]

theorem jsRound_one_100 : jsRound ((1 : ℚ) * 100) = 100 := by norm_num [jsRound]

theorem rgbToHex_red : rgbToHex 1 0 0 = "#FF0000" := by
  simp only [rgbToHex, toHex]
  rw [jsRound_one_255, jsRound_zero_255]
  decide

theorem rgbToRgba_red : rgbToRgba 1 0 0 1 = "rgba(255, 0, 0, 1.00)" := by
  simp only [rgbToRgba, toFixed2]
  rw [jsRound_one_255, jsRound_zero_255, jsRound_one_100]
  decide

theorem extractColors_red : extractColors [redNode] = [redParsed] := by
  have hmk : mkParsedColor ⟨1, 0, 0, some 1⟩ = redParsed := by
    show ({ r := 1, g := 0, b := 0, a := (some (1 : ℚ)).getD 1
            hex := rgbToHex 1 0 0
            rgba := rgbToRgba 1 0 0 ((some (1 : ℚ)).getD 1) } : ParsedColor)
        = redParsed
    rw [show (some (1 : ℚ)).getD 1 = 1 from rfl, rgbToHex_red, rgbToRgba_red]
    rfl
  rw [show extractColors [redNode] = [mkParsedColor ⟨1, 0, 0, some 1⟩] from rfl, hmk]

/-- C3 witness: the single red parsed color extracted from a one-node forest
has the hex derived from its own channels. -/
theorem C3_extract_colors_witness :
    redParsed.hex = rgbToHex redParsed.r redParsed.g redParsed.b :=
  (C3_extract_colors [redNode]).2.2 redParsed
    (by rw [extractColors_red]; exact List.mem_singleton_self _)

end DG
